import Mathlib

/-!
Verification of the GitShieldAnalyzer repository analysis pipeline.

This file gives a shallow embedding of the analysis pipeline of the
repository (server/services/repoAnalyzer.ts together with its rewritten
variant in src/unnamed/part_004, server/services/fileHashService.ts,
server/services/llmService.ts, db/schema.ts) and proves or refutes the
frozen specification claims about it.

Modelling conventions:
- JavaScript strings are Lean `String`s; the JS string primitives used by
  the source (`endsWith`, `startsWith`, `toLowerCase`, `split('\n')`,
  `localeCompare`) are modelled by structurally recursive functions over
  `List Char` so that concrete instances reduce inside the kernel.
  `localeCompare` is modelled as ordinal (code-point) comparison, which the
  spec explicitly allows for the Tree Builder sort.
- The SHA-1 fingerprint of fileHashService.calculateFileHash is computed by
  the external crypto library, so scan-level functions are parameterised by
  an arbitrary `hash : String → String`; claims that need distinct digests
  for distinct contents take that as a hypothesis.
- The Postgres store behind drizzle is modelled as in-memory lists of rows
  in insertion order; `findFirst` is `List.find?`, `insert ... returning`
  appends a row with a fresh serial id, `update` maps over rows.
- The external OpenAI call of llmService.analyzeCode is a parameter; its
  possible outcomes (transport failure, missing content, malformed JSON,
  parsed response) are an explicit sum type.
-/

/-! ## JS string primitives -/

/-- Model of JS `String.prototype.endsWith`. -/
def strEndsWith (s t : String) : Bool :=
  decide (t.data = s.data.drop (s.data.length - t.data.length))

/-- Model of JS `String.prototype.startsWith`. -/
def strStartsWith (s t : String) : Bool :=
  decide (t.data = s.data.take t.data.length)

/-- Model of JS `String.prototype.toLowerCase` (ASCII case folding). -/
def strToLower (s : String) : String := ⟨s.data.map Char.toLower⟩

/-- Model of JS `String.prototype.split('\n')`: cut a char list at every
newline character. -/
def splitLines (l : List Char) : List (List Char) :=
  match l with
  | [] => [[]]
  | c :: rest =>
    match splitLines rest with
    | [] => [[]]
    | h :: t => if c = '\n' then [] :: h :: t else (c :: h) :: t

/-- Lexicographic (ordinal) comparison of char lists; model of a
`localeCompare`-based "less or equal" on strings. -/
def charsLe : List Char → List Char → Bool
  | [], _ => true
  | _ :: _, [] => false
  | a :: as, b :: bs => if a = b then charsLe as bs else decide (a < b)

/-- Ordinal string comparison used to model the JS sort comparator. -/
def strLe (a b : String) : Bool := charsLe a.data b.data

theorem charsLe_total (a b : List Char) : charsLe a b = true ∨ charsLe b a = true := by
  induction a generalizing b with
  | nil => left; rfl
  | cons x xs ih =>
    cases b with
    | nil => right; rfl
    | cons y ys =>
      by_cases h : x = y
      · subst h
        rcases ih ys with h' | h'
        · left; simp [charsLe, h']
        · right; simp [charsLe, h']
      · rcases lt_trichotomy x y with hlt | heq | hgt
        · left; simp [charsLe, h, hlt]
        · exact absurd heq h
        · right; simp [charsLe, Ne.symm h, hgt, not_lt.mpr (le_of_lt hgt)]

theorem charsLe_trans {a b c : List Char} (h1 : charsLe a b = true) (h2 : charsLe b c = true) :
    charsLe a c = true := by
  induction a generalizing b c with
  | nil => rfl
  | cons x xs ih =>
    cases b with
    | nil => simp [charsLe] at h1
    | cons y ys =>
      cases c with
      | nil => simp [charsLe] at h2
      | cons z zs =>
        simp only [charsLe] at h1 h2 ⊢
        by_cases hxy : x = y
        · subst hxy
          simp at h1
          by_cases hyz : x = z
          · subst hyz; simp at h2 ⊢; exact ih h1 h2
          · simp [hyz] at h2 ⊢; exact h2
        · simp [hxy] at h1
          by_cases hyz : y = z
          · subst hyz; simp [hxy]; exact h1
          · simp [hyz] at h2
            have hxz : x < z := lt_trans h1 h2
            simp [ne_of_lt hxz, hxz]

theorem charsLe_antisymm {a b : List Char} (h1 : charsLe a b = true) (h2 : charsLe b a = true) :
    a = b := by
  induction a generalizing b with
  | nil =>
    cases b with
    | nil => rfl
    | cons y ys => simp [charsLe] at h2
  | cons x xs ih =>
    cases b with
    | nil => simp [charsLe] at h1
    | cons y ys =>
      simp only [charsLe] at h1 h2
      by_cases hxy : x = y
      · subst hxy; simp at h1 h2; rw [ih h1 h2]
      · simp [hxy, Ne.symm hxy] at h1 h2
        exact absurd (lt_trans h1 h2) (lt_irrefl x)

theorem strLe_antisymm {a b : String} (h1 : strLe a b = true) (h2 : strLe b a = true) :
    a = b :=
  String.ext (charsLe_antisymm h1 h2)

/-! ## Domain types (client/src/lib/types.ts) -/

/-- Severity levels of client/src/lib/types.ts (`'low' | 'medium' | 'high'`). -/
inductive Severity where
  | low
  | medium
  | high
deriving DecidableEq, Repr

/-- SecurityRule of client/src/lib/types.ts. -/
structure SecurityRule where
  id : Nat
  name : String
  description : String
  category : String
  severity : Severity
  llmPrompt : String
deriving DecidableEq, Repr

/-- SecurityFinding of client/src/lib/types.ts. The optional fileContent
carries the full file content. The classifier line number is an Int because
the JS value comes from parsed JSON and is only shifted, never clamped. -/
structure SecurityFinding where
  ruleId : Nat
  ruleName : String
  severity : Severity
  location : String
  description : String
  recommendation : String
  lineNumber : Int
  codeSnippet : String
  fileContent : Option String
deriving DecidableEq, Repr

/-! ## fileHashService.ts and the cache tables of db/schema.ts -/

namespace FileHashService

/-- Row of the analyzed_files table (db/schema.ts lines 29-35): one row per
file identity, holding the most recently recorded content hash. The
lastAnalyzed timestamp is not modelled. -/
structure AnalyzedFileRow where
  id : Nat
  filePath : String
  fileHash : String
  repositoryName : String
deriving DecidableEq, Repr

/-- Row of the file_rule_analyses table (db/schema.ts lines 38-48): which
rule was applied to which file row, with the stored findings (jsonb, null
when recordAnalysis received no list). Note that the row carries no
content hash of its own. -/
structure FileRuleAnalysisRow where
  fileId : Nat
  ruleId : Nat
  findings : Option (List SecurityFinding)
deriving DecidableEq, Repr

/-- The cache-relevant database state: both tables in insertion order plus
the next serial id for analyzed_files. -/
structure DB where
  files : List AnalyzedFileRow
  analyses : List FileRuleAnalysisRow
  nextId : Nat
deriving DecidableEq, Repr

/-- Empty database. -/
def DB.empty : DB := ⟨[], [], 0⟩

/-- Embedding of fileHashService.hasBeenAnalyzed (lines 11-38): find a file
row matching path, hash and repository name; if present, find an analysis
row for that file id and rule id; a hit returns the stored findings with
null coalesced to the empty list. -/
def hasBeenAnalyzed (db : DB) (filePath fileHash repositoryName : String) (ruleId : Nat) :
    Bool × Option (List SecurityFinding) :=
  match db.files.find? (fun f =>
      f.filePath == filePath && f.fileHash == fileHash && f.repositoryName == repositoryName) with
  | none => (false, none)
  | some file =>
    match db.analyses.find? (fun a => a.fileId == file.id && a.ruleId == ruleId) with
    | none => (false, none)
    | some analysis => (true, some (analysis.findings.getD []))

/-- Embedding of fileHashService.recordAnalysis (lines 40-81): upsert the
file row keyed by (filePath, repositoryName), overwriting its stored hash on
update, then always append a fresh rule-analysis row. -/
def recordAnalysis (db : DB) (filePath fileHash repositoryName : String) (ruleId : Nat)
    (findings : Option (List SecurityFinding)) : DB :=
  match db.files.find? (fun f =>
      f.filePath == filePath && f.repositoryName == repositoryName) with
  | none =>
    { files := db.files ++ [⟨db.nextId, filePath, fileHash, repositoryName⟩]
      analyses := db.analyses ++ [⟨db.nextId, ruleId, findings⟩]
      nextId := db.nextId + 1 }
  | some file =>
    { files := db.files.map (fun f => if f.id == file.id then { f with fileHash := fileHash } else f)
      analyses := db.analyses ++ [⟨file.id, ruleId, findings⟩]
      nextId := db.nextId }

end FileHashService

/-! ## llmService.ts -/

namespace LlmService

/-- Normalized adapter result (interface LLMAnalysis of llmService.ts). -/
structure LLMAnalysis where
  description : String
  recommendation : String
  lineNumber : Int
  codeSnippet : String
deriving DecidableEq, Repr

/-- Shape of a successfully parsed classifier JSON response. -/
structure ParsedResponse where
  vulnerable : Bool
  description : String
  recommendation : String
  lineNumber : Int
deriving DecidableEq, Repr

/-- Possible outcomes of the external OpenAI chat completion call as seen by
analyzeCode: a transport failure (the API call throws), a response with no
message content, a response whose content JSON.parse rejects, or a parsed
response object. -/
inductive LLMOutcome where
  | transportError (msg : String)
  | noContent
  | malformed (msg : String)
  | parsed (response : ParsedResponse)
deriving DecidableEq, Repr

/-- Lines of a content string, as JS content.split('\n'). -/
def linesOf (content : String) : List String :=
  (splitLines content.data).map (fun l => ⟨l⟩)

/-- Embedding of llmService.extractRelevantLines (lines 19-29): a window of
windowSize = 5 lines starting at max(0, startLine - 2) and ending at
min(lineCount, start + 5), joined with newlines, together with
startLine + 1. -/
def extractRelevantLines (content : String) (startLine : Int) : String × Int :=
  let lines := linesOf content
  let start : Int := max 0 (startLine - 2)
  let stop : Int := min (lines.length : Int) (start + 5)
  (String.intercalate "\n" ((lines.drop start.toNat).take (stop - start).toNat),
   startLine + 1)

/-- Category keys of the keyword-heuristic pattern table of
llmService.containsRelevantPatterns (lines 33-81). -/
def patternCategories : List String :=
  ["CORS", "MFA", "CSRF Tokens", "Password Policy", "Session Management",
   "XSS Protection", "SQL Injection", "Hardcoded Credentials", "TLS Version"]

/-- Semantics of the JS default pattern `/./` used when a category has no
entry in the table: test succeeds iff the code contains at least one
character that is not a JS line terminator (LF, CR, LS, PS). -/
def dotMatches (code : String) : Bool :=
  code.data.any (fun c => !(c == '\n' || c == '\r' || c == ' ' || c == ' '))

/-- Embedding of llmService.containsRelevantPatterns (lines 32-86),
parameterised by the regex semantics `testCategory` of the per-category
pattern sets; a category absent from the table falls back to the single
default pattern `/./`. -/
def containsRelevantPatterns (testCategory : String → String → Bool)
    (code : String) (rule : SecurityRule) : Bool :=
  if rule.category ∈ patternCategories then testCategory rule.category code
  else dotMatches code

/-- Embedding of llmService.analyzeCode (lines 88-163), parameterised by the
pattern-table regex semantics and the external call. The second component of
the result records whether the external call was made (false exactly when
the pre-filter short-circuited). Transport errors and JSON parse errors
propagate as errors (the catch block rethrows); a non-vulnerable or
content-less response maps to `none`. -/
def analyzeCode (testCategory : String → String → Bool)
    (llm : String → SecurityRule → LLMOutcome)
    (content : String) (rule : SecurityRule) :
    Except String (Option LLMAnalysis) × Bool :=
  if containsRelevantPatterns testCategory content rule = false then (.ok none, false)
  else
    match llm content rule with
    | .transportError m => (.error m, true)
    | .noContent => (.ok none, true)
    | .malformed m => (.error m, true)
    | .parsed a =>
      if a.vulnerable = false then (.ok none, true)
      else
        let sl := extractRelevantLines content (a.lineNumber - 1)
        (.ok (some ⟨a.description, a.recommendation, sl.2, sl.1⟩), true)

end LlmService

/-! ## Eligibility predicates and severity aggregation -/

/-- Extension allow-list; the identical literal list appears in
repoAnalyzer.shouldAnalyzeFile (lines 193-197) and in the part_004 variant
(lines 54-58). -/
def sourceExtensions : List String :=
  [".js", ".jsx", ".ts", ".tsx", ".py", ".rb", ".php", ".java", ".go", ".cs", ".cpp", ".c"]

namespace RepoAnalyzer

/-- Embedding of repoAnalyzer.shouldAnalyzeFile (lines 192-199):
`extensions.some(ext => filename.endsWith(ext))` - a case-sensitive suffix
test. -/
def shouldAnalyzeFile (filename : String) : Bool :=
  sourceExtensions.any (fun ext => strEndsWith filename ext)

/-- Directory-exclusion condition of repoAnalyzer.ts: traversal and the tree
builder skip an entry iff `entry.name.startsWith('.') || entry.name ===
'node_modules'` (negation of the descend conditions at lines 96 and 135). -/
def excludedDirectory (name : String) : Bool :=
  strStartsWith name "." || name == "node_modules"

/-- Embedding of repoAnalyzer.calculateOverallSeverity (lines 201-205); the
part_004 variant inlines the same expression (lines 225-226). -/
def calculateOverallSeverity (findings : List SecurityFinding) : Severity :=
  if findings.any (fun f => f.severity == Severity.high) then .high
  else if findings.any (fun f => f.severity == Severity.medium) then .medium
  else .low

end RepoAnalyzer

namespace Part004

/-- Embedding of shouldAnalyzeFile of the part_004 variant (lines 53-60):
`extensions.some(ext => filename.toLowerCase().endsWith(ext))` - a
case-insensitive suffix test. -/
def shouldAnalyzeFile (filename : String) : Bool :=
  sourceExtensions.any (fun ext => strEndsWith (strToLower filename) ext)

/-- Directory-exclusion condition of the part_004 variant: an entry is
skipped iff `['node_modules', '.git'].includes(entry.name)` (lines 69, 110,
292). -/
def excludedDirectory (name : String) : Bool :=
  name == "node_modules" || name == ".git"

end Part004

/-- Severity rank for the spec-side aggregation (low < medium < high). -/
def severityRank : Severity → Nat
  | .low => 0
  | .medium => 1
  | .high => 2

/-- Maximum of two severities under low < medium < high. -/
def maxSeverity (a b : Severity) : Severity :=
  if severityRank a < severityRank b then b else a

/-- Modelled from the spec: "overall severity = highest severity among all
findings (high > medium > low; empty findings list implies low)". Used only
to compare the source aggregation against the spec wording. -/
def overallSeveritySpec (findings : List SecurityFinding) : Severity :=
  (findings.map (fun f => f.severity)).foldr maxSeverity .low

/-! ## Filesystem snapshot model and the tree builder -/

/-- In-memory model of the extracted repository snapshot: the name and the
readdir listing (in listing order) of every directory, and the content of
every file. -/
inductive FSEntry where
  | file (name content : String)
  | dir (name : String) (entries : List FSEntry)

/-- Name of a filesystem entry. -/
def FSEntry.name : FSEntry → String
  | .file n _ => n
  | .dir n _ => n

/-- TreeNode of client/src/lib/types.ts: children are present exactly for
directories. -/
inductive TreeNode where
  | file (name path : String)
  | dir (name path : String) (children : List TreeNode)

/-- Name of a tree node. -/
def TreeNode.name : TreeNode → String
  | .file n _ => n
  | .dir n _ _ => n

/-- Kind test of a tree node (`type === 'directory'`). -/
def TreeNode.isDir : TreeNode → Bool
  | .file _ _ => false
  | .dir _ _ _ => true

/-- Boolean form of the JS sort comparator of buildDirectoryTree
(repoAnalyzer.ts lines 112-115, part_004 lines 307-310): nodes of equal kind
compare by name, otherwise directories come first. -/
def nodeLE (a b : TreeNode) : Bool :=
  if a.isDir == b.isDir then strLe a.name b.name else a.isDir

/-- Propositional form of the comparator, for the sort lemmas. -/
def nodeLe (a b : TreeNode) : Prop := nodeLE a b = true

instance : DecidableRel nodeLe := fun a b => by unfold nodeLe; infer_instance

instance : IsTotal TreeNode nodeLe := by
  constructor
  intro a b
  unfold nodeLe nodeLE strLe
  by_cases h : a.isDir = b.isDir
  · simp [h]; exact charsLe_total _ _
  · cases ha : a.isDir <;> cases hb : b.isDir <;> simp_all

instance : IsTrans TreeNode nodeLe := by
  constructor
  intro a b c hab hbc
  unfold nodeLe nodeLE strLe at *
  cases ha : a.isDir <;> cases hb : b.isDir <;> cases hc : c.isDir <;>
    simp_all
  · exact charsLe_trans hab hbc
  · exact charsLe_trans hab hbc

/-- Model of the JS children sort `children.sort(comparator)`: a comparison
sort under the comparator; with no comparator ties the result is the unique
sorted permutation, so any correct sort models the JS engine's. -/
def sortChildren (children : List TreeNode) : List TreeNode :=
  List.insertionSort nodeLe children

mutual

/-- Embedding of buildDirectoryTree (repoAnalyzer.ts lines 81-121, part_004
lines 277-312), parameterised by the entry filter that differs between the
two variants. A file path becomes a leaf; a directory lists its entries,
drops excluded names, builds each remaining entry and sorts the results with
the comparator. Child build failures (dropped with a log in the source) are
not modelled. -/
def buildDirectoryTree (excluded : String → Bool) (parentPath : String) : FSEntry → TreeNode
  | .file n _ => .file n (parentPath ++ "/" ++ n)
  | .dir n es => .dir n (parentPath ++ "/" ++ n)
      (sortChildren (buildChildren excluded (parentPath ++ "/" ++ n) es))

/-- The filtered recursive construction of the children of one directory,
before sorting. -/
def buildChildren (excluded : String → Bool) (p : String) : List FSEntry → List TreeNode
  | [] => []
  | e :: rest =>
    if excluded e.name then buildChildren excluded p rest
    else buildDirectoryTree excluded p e :: buildChildren excluded p rest

end

/-! ## Scan-level model of the part_004 orchestrator variant -/

/-- Key quadruple passed to the cache functions of fileHashService.ts. -/
structure CacheKey where
  filePath : String
  fileHash : String
  repositoryName : String
  ruleId : Nat
deriving DecidableEq, Repr

/-- Model of the classifier adapter as seen by analyzeFiles: analyzeCode
either throws (transport/parse failure) or returns an optional normalized
analysis. -/
def Classifier : Type :=
  String → SecurityRule → Except String (Option LlmService.LLMAnalysis)

namespace Part004

open FileHashService

/-- State threaded through analyzeFiles: the cache database, the
accumulated findings array, the processed-file counter of the progress
updates, and instrumentation logs of every cache lookup, every cache write
and every classifier invocation (keyed by relative path and rule id), in
call order. -/
structure ScanState where
  db : DB
  findings : List SecurityFinding
  processed : Nat
  lookups : List CacheKey
  records : List CacheKey
  calls : List (String × Nat)
deriving DecidableEq, Repr

/-- Initial scan state over a given database. -/
def ScanState.init (db : DB) : ScanState := ⟨db, [], 0, [], [], []⟩

/-- Embedding of the per-rule loop of the part_004 analyzeFiles (lines
132-165). Returns the updated state and false when a classifier error
escaped to the per-file catch block (skipping the remaining rules of the
file); on a cache hit the stored findings are appended and no classifier
call or cache write happens; on a miss the classifier runs, and on success
the result (finding or empty list) is written through to the cache. -/
def runRules (classify : Classifier) (repositoryName relativePath fileHash content : String) :
    List SecurityRule → ScanState → ScanState × Bool
  | [], st => (st, true)
  | rule :: rest, st =>
    let key : CacheKey := ⟨relativePath, fileHash, repositoryName, rule.id⟩
    let st1 := { st with lookups := st.lookups ++ [key] }
    let hit := hasBeenAnalyzed st1.db relativePath fileHash repositoryName rule.id
    if hit.1 then
      runRules classify repositoryName relativePath fileHash content rest
        { st1 with findings := st1.findings ++ (hit.2.getD []) }
    else
      let st2 := { st1 with calls := st1.calls ++ [(relativePath, rule.id)] }
      match classify content rule with
      | .error _ => (st2, false)
      | .ok none =>
        runRules classify repositoryName relativePath fileHash content rest
          { st2 with
            db := recordAnalysis st2.db relativePath fileHash repositoryName rule.id (some [])
            records := st2.records ++ [key] }
      | .ok (some a) =>
        let finding : SecurityFinding :=
          ⟨rule.id, rule.name, rule.severity, relativePath, a.description,
           a.recommendation, a.lineNumber, a.codeSnippet, some content⟩
        runRules classify repositoryName relativePath fileHash content rest
          { st2 with
            findings := st2.findings ++ [finding]
            db := recordAnalysis st2.db relativePath fileHash repositoryName rule.id
              (some [finding])
            records := st2.records ++ [key] }

/-- Embedding of the per-file body of the part_004 analyzeFiles (lines
117-168): read the content, bump the processed counter and emit progress,
hash the content, compute relativePath = path.relative(dir, join(dir, name))
= name, then run the rule loop; the surrounding try/catch swallows a rule
loop abort. -/
def processFile (classify : Classifier) (hash : String → String)
    (rules : List SecurityRule) (repositoryName name content : String)
    (st : ScanState) : ScanState :=
  let st1 := { st with processed := st.processed + 1 }
  (runRules classify repositoryName name (hash content) content rules st1).1

/-- Embedding of the traversal of the part_004 analyzeFiles (lines 105-115):
entries in listing order; a directory is entered unless excluded, carrying
the scan's repositoryName unchanged into the recursion; an eligible file is
processed. -/
def analyzeEntries (classify : Classifier) (hash : String → String)
    (rules : List SecurityRule) (repositoryName : String) :
    List FSEntry → ScanState → ScanState
  | [], st => st
  | .dir n es :: rest, st =>
    let st1 := if excludedDirectory n then st
               else analyzeEntries classify hash rules repositoryName es st
    analyzeEntries classify hash rules repositoryName rest st1
  | .file n c :: rest, st =>
    let st1 := if shouldAnalyzeFile n
               then processFile classify hash rules repositoryName n c st
               else st
    analyzeEntries classify hash rules repositoryName rest st1

/-- Embedding of the part_004 countAnalyzableFiles (lines 62-77): count of
eligible files under a listing, with excluded directories pruned. -/
def countAnalyzableFiles : List FSEntry → Nat
  | [] => 0
  | .dir n es :: rest =>
    (if excludedDirectory n then 0 else countAnalyzableFiles es) + countAnalyzableFiles rest
  | .file n _ :: rest =>
    (if shouldAnalyzeFile n then 1 else 0) + countAnalyzableFiles rest

/-- AnalysisReport of client/src/lib/types.ts, without the wall-clock
timestamp field. -/
structure AnalysisReport where
  repositoryName : String
  findings : List SecurityFinding
  severity : Severity
deriving DecidableEq, Repr

/-- Observable outcome of one part_004 analyzeRepository invocation: the
final scan_status row fields, the analysis_results row if one was inserted,
the returned or thrown result, and the final traversal state. -/
structure ScanOutcome where
  status : String
  progress : Nat
  error : Option String
  persistedReport : Option AnalysisReport
  result : Except String (AnalysisReport × TreeNode)
  final : ScanState

/-- Embedding of the part_004 analyzeRepository (lines 172-275) from the
point where the snapshot is extracted: repositoryName is the caller
metadata name or the source basename; a scan starts in_progress at progress
0; zero analyzable files throws before any tree build or analysis, and the
catch block marks the scan failed with the error message and persists no
report; otherwise the tree is built, the traversal runs, the overall
severity and report are computed, the report row is inserted and the scan
is marked completed at progress 100. -/
def analyzeRepository (classify : Classifier) (hash : String → String)
    (metadataRepoName : Option String) (sourceBase rootName : String)
    (entries : List FSEntry) (rules : List SecurityRule) (db0 : FileHashService.DB) :
    ScanOutcome :=
  let repositoryName := metadataRepoName.getD sourceBase
  let totalFiles := countAnalyzableFiles entries
  if totalFiles = 0 then
    { status := "failed"
      progress := 0
      error := some "No analyzable files found in the repository"
      persistedReport := none
      result := .error "No analyzable files found in the repository"
      final := ScanState.init db0 }
  else
    let tree := buildDirectoryTree excludedDirectory "" (.dir rootName entries)
    let st := analyzeEntries classify hash rules repositoryName entries (ScanState.init db0)
    let severity := RepoAnalyzer.calculateOverallSeverity st.findings
    let report : AnalysisReport := ⟨repositoryName, st.findings, severity⟩
    { status := "completed"
      progress := 100
      error := none
      persistedReport := some report
      result := .ok (report, tree)
      final := st }

end Part004

namespace RepoAnalyzer

/-- Lookup keys issued by the analyzeFiles of repoAnalyzer.ts (lines
123-190), in call order. In that variant the repository identity of each
key is `path.basename(dir)` recomputed inside every recursive call (line
146), so it names the directory containing the file, and relativePath
is the entry basename. Only the lookup sequence is modelled: since
`hasBeenAnalyzed` resolves to an object and objects are truthy, the
`if (await hasBeenAnalyzed(...))` guard at line 153 always takes the skip
branch, so this variant performs no classifier calls and no cache writes. -/
def lookupKeys (hash : String → String) (rules : List SecurityRule) :
    String → List FSEntry → List CacheKey
  | _, [] => []
  | dirName, .dir n es :: rest =>
    (if excludedDirectory n then [] else lookupKeys hash rules n es) ++
      lookupKeys hash rules dirName rest
  | dirName, .file n c :: rest =>
    (if shouldAnalyzeFile n
     then rules.map (fun r => ⟨n, hash c, dirName, r.id⟩)
     else []) ++ lookupKeys hash rules dirName rest

end RepoAnalyzer

/-- Context window of the snippet extraction, phrased at the adapter level:
for a 1-based classifier-reported line L, the extracted window starts at
0-based line max 0 (L - 3) and extends to at most 5 lines, cut off at the
line count. -/
def contextWindow (content : String) (L : Int) : List String :=
  let lines := LlmService.linesOf content
  let start : Int := max 0 (L - 3)
  (lines.drop start.toNat).take ((min (lines.length : Int) (start + 5)) - start).toNat

/-! ## Theorems: severity aggregation (C7) -/

theorem calculateOverallSeverity_cons (f : SecurityFinding) (t : List SecurityFinding) :
    RepoAnalyzer.calculateOverallSeverity (f :: t) =
      maxSeverity f.severity (RepoAnalyzer.calculateOverallSeverity t) := by
  unfold RepoAnalyzer.calculateOverallSeverity maxSeverity
  cases hf : f.severity <;>
    by_cases h1 : t.any (fun g => g.severity == Severity.high) = true <;>
    by_cases h2 : t.any (fun g => g.severity == Severity.medium) = true <;>
    simp [List.any_cons, hf, h1, h2, severityRank]

/-- C7: overall severity aggregation returns the highest severity among the
findings under high > medium > low and low on the empty list;
calculateOverallSeverity agrees with the spec-side fold of maxSeverity, and
the three examples of the spec hold. -/
theorem overall_severity_claim :
    (∀ findings : List SecurityFinding,
      RepoAnalyzer.calculateOverallSeverity findings = overallSeveritySpec findings) ∧
    RepoAnalyzer.calculateOverallSeverity [] = Severity.low ∧
    RepoAnalyzer.calculateOverallSeverity
      [⟨1, "r", Severity.medium, "l", "d", "rec", 1, "s", none⟩] = Severity.medium ∧
    RepoAnalyzer.calculateOverallSeverity
      [⟨1, "r", Severity.low, "l", "d", "rec", 1, "s", none⟩,
       ⟨2, "r2", Severity.high, "l", "d", "rec", 1, "s", none⟩] = Severity.high := by
  refine ⟨?_, by decide, by decide, by decide⟩
  intro findings
  induction findings with
  | nil => rfl
  | cons f t ih =>
    rw [calculateOverallSeverity_cons, ih]
    rfl

/-! ## Theorems: eligibility predicates (C4) -/

/-- C4 as stated is false on repoAnalyzer.ts: its shouldAnalyzeFile compares
suffixes case-sensitively, so "A.JS" is not eligible there, and its
traversal excludes every dot-prefixed directory, so ".github" is not
descended into. -/
theorem eligibility_claim_counterexample :
    RepoAnalyzer.shouldAnalyzeFile "A.JS" = false ∧
    RepoAnalyzer.excludedDirectory ".github" = true := by
  decide

/-- C4 amended: the eligibility examples hold verbatim for the part_004
variant (case-insensitive suffix test; exactly node_modules and .git
excluded, every other dot-prefixed directory descended into), while in the
repoAnalyzer.ts variant the suffix test is case-sensitive and every
dot-prefixed directory is excluded from traversal. -/
theorem eligibility_variants_amended :
    Part004.shouldAnalyzeFile "a.py" = true ∧
    Part004.shouldAnalyzeFile "a.md" = false ∧
    Part004.shouldAnalyzeFile "A.JS" = true ∧
    Part004.excludedDirectory ".git" = true ∧
    Part004.excludedDirectory "node_modules" = true ∧
    Part004.excludedDirectory "src" = false ∧
    (∀ name : String, strStartsWith name "." = true → name ≠ ".git" →
      Part004.excludedDirectory name = false) ∧
    RepoAnalyzer.shouldAnalyzeFile "a.py" = true ∧
    RepoAnalyzer.shouldAnalyzeFile "a.md" = false ∧
    RepoAnalyzer.shouldAnalyzeFile "A.JS" = false ∧
    (∀ name : String, strStartsWith name "." = true →
      RepoAnalyzer.excludedDirectory name = true) := by
  refine ⟨by decide, by decide, by decide, by decide, by decide, by decide, ?_,
    by decide, by decide, by decide, ?_⟩
  · intro name h hne
    have hnm : name ≠ "node_modules" := by
      intro h'
      rw [h'] at h
      exact absurd h (by decide)
    simp [Part004.excludedDirectory, hnm, hne]
  · intro name h
    simp [RepoAnalyzer.excludedDirectory, h]

/-- Witness for the amended C4: ".github" starts with a dot, differs from
".git", is descended into by the part_004 variant and excluded by the
repoAnalyzer.ts variant. -/
theorem eligibility_variants_witness :
    strStartsWith ".github" "." = true ∧ (".github" : String) ≠ ".git" ∧
    Part004.excludedDirectory ".github" = false ∧
    RepoAnalyzer.excludedDirectory ".github" = true :=
  ⟨by decide, by decide,
   eligibility_variants_amended.2.2.2.2.2.2.1 ".github" (by decide) (by decide),
   eligibility_variants_amended.2.2.2.2.2.2.2.2.2.2 ".github" (by decide)⟩

/-! ## Theorems: classifier pre-filter default (C10) -/

/-- C10 as stated is false: for the category "Other", which has no entry in
the pattern table, the newline-only content "\n" is non-empty yet the
default pattern /./ matches no character of it, so containsRelevantPatterns
returns false and analyzeCode returns null without making the external call
(second component false), even for a classifier that would report a
vulnerability. -/
theorem prefilter_claim_counterexample :
    ("\n" : String) ≠ "" ∧
    "Other" ∉ LlmService.patternCategories ∧
    LlmService.containsRelevantPatterns (fun _ _ => true) "\n"
      ⟨1, "r", "d", "Other", Severity.low, "p"⟩ = false ∧
    LlmService.analyzeCode (fun _ _ => true)
      (fun _ _ => .parsed ⟨true, "v", "fix", 1⟩) "\n"
      ⟨1, "r", "d", "Other", Severity.low, "p"⟩ = (.ok none, false) :=
  ⟨by decide, by decide, by decide, rfl⟩

/-- C10 amended: for a rule category with no entry in the pattern table the
pre-filter falls back to the single default pattern /./, so it returns true
and the adapter proceeds to the external call exactly when the content has
at least one character that is not a JS line terminator; non-empty content
consisting only of line terminators still short-circuits. -/
theorem prefilter_default_amended (testCategory : String → String → Bool)
    (llm : String → SecurityRule → LlmService.LLMOutcome)
    (content : String) (rule : SecurityRule)
    (hcat : rule.category ∉ LlmService.patternCategories)
    (hchar : ∃ c ∈ content.data, ¬(c = '\n' ∨ c = '\r' ∨ c = ' ' ∨ c = ' ')) :
    LlmService.containsRelevantPatterns testCategory content rule = true ∧
    (LlmService.analyzeCode testCategory llm content rule).2 = true := by
  have hpat : LlmService.containsRelevantPatterns testCategory content rule = true := by
    unfold LlmService.containsRelevantPatterns
    rw [if_neg hcat]
    unfold LlmService.dotMatches
    rw [List.any_eq_true]
    obtain ⟨c, hc, hne⟩ := hchar
    refine ⟨c, hc, ?_⟩
    simp only [Bool.not_eq_true']
    simp only [not_or] at hne
    simp [beq_eq_false_iff_ne, hne.1, hne.2.1, hne.2.2.1, hne.2.2.2]
  refine ⟨hpat, ?_⟩
  unfold LlmService.analyzeCode
  rw [hpat]
  simp only [Bool.true_eq_false, if_false]
  cases llm content rule with
  | transportError m => rfl
  | noContent => rfl
  | malformed m => rfl
  | parsed a =>
    by_cases hv : a.vulnerable = false <;> simp [hv]

/-- Witness for the amended C10: category "Other" is not in the table and
content "x" has a non-terminator character, so the pre-filter passes and the
external call is made. -/
theorem prefilter_default_witness :
    LlmService.containsRelevantPatterns (fun _ _ => false) "x"
      ⟨1, "r", "d", "Other", Severity.low, "p"⟩ = true ∧
    (LlmService.analyzeCode (fun _ _ => false) (fun _ _ => .noContent) "x"
      ⟨1, "r", "d", "Other", Severity.low, "p"⟩).2 = true :=
  prefilter_default_amended (fun _ _ => false) (fun _ _ => .noContent) "x"
    ⟨1, "r", "d", "Other", Severity.low, "p"⟩ (by decide) (by decide)

/-! ## Theorems: snippet window and line number (C9) -/

/-- C9 as stated is false: for the 3-line content "a\nb\nc" and classifier
line number 1000 the adapter returns line number 1000 unchanged, outside the
valid bounds 1..3 (no clamping happens), with an empty snippet. -/
theorem snippet_clamp_counterexample :
    (LlmService.linesOf "a\nb\nc").length = 3 ∧
    (LlmService.extractRelevantLines "a\nb\nc" (1000 - 1)).2 = 1000 ∧
    ¬(LlmService.extractRelevantLines "a\nb\nc" (1000 - 1)).2 ≤ 3 ∧
    (LlmService.analyzeCode (fun _ _ => true)
      (fun _ _ => .parsed ⟨true, "d", "rec", 1000⟩) "a\nb\nc"
      ⟨1, "r", "d", "Other", Severity.low, "p"⟩).1
      = .ok (some ⟨"d", "rec", 1000, ""⟩) :=
  ⟨rfl, rfl, by decide, rfl⟩

/-- C9 amended: for classifier-reported 1-based line L the adapter snippet
is the window of the file's lines starting at 0-based index max 0 (L - 3)
and cut to at most 5 lines by the line count (so it is centered on L
whenever 3 ≤ L and L + 2 is at most the line count, where it is exactly 5
lines), and the returned line number is L unchanged: the source applies no
clamping to it, so it can lie outside the file's valid line numbers. -/
theorem snippet_window_amended (content : String) (L : Int) :
    LlmService.extractRelevantLines content (L - 1) =
      (String.intercalate "\n" (contextWindow content L), L) ∧
    (contextWindow content L).length ≤ 5 ∧
    (3 ≤ L → L + 2 ≤ ((LlmService.linesOf content).length : Int) →
      contextWindow content L = ((LlmService.linesOf content).drop (L - 3).toNat).take 5 ∧
      (contextWindow content L).length = 5) := by
  have h3 : L - 1 - 2 = L - 3 := by ring
  refine ⟨?_, ?_, ?_⟩
  · unfold LlmService.extractRelevantLines contextWindow
    simp only [h3]
    rw [Prod.mk.injEq]
    exact ⟨rfl, by omega⟩
  · unfold contextWindow
    simp only [List.length_take, List.length_drop]
    omega
  · intro h1 h2
    have hs : max (0 : Int) (L - 3) = L - 3 := by omega
    have hm : min (((LlmService.linesOf content).length : Int)) (L - 3 + 5) = L + 2 := by
      omega
    have ht : (L + 2 - (L - 3)).toNat = 5 := by omega
    constructor
    · unfold contextWindow
      simp only [hs, hm, ht]
    · unfold contextWindow
      simp only [hs, hm, ht, List.length_take, List.length_drop]
      omega

/-- Witness for the amended C9: content with five lines and reported line 3
is the interior case; the window is all five lines centered on line 3 and
the returned line number is 3. -/
theorem snippet_window_witness :
    LlmService.extractRelevantLines "a\nb\nc\nd\ne" (3 - 1) =
      (String.intercalate "\n" (contextWindow "a\nb\nc\nd\ne" 3), 3) ∧
    contextWindow "a\nb\nc\nd\ne" 3 =
      ((LlmService.linesOf "a\nb\nc\nd\ne").drop ((3 : Int) - 3).toNat).take 5 :=
  ⟨(snippet_window_amended "a\nb\nc\nd\ne" 3).1,
   ((snippet_window_amended "a\nb\nc\nd\ne" 3).2.2 (by decide) (by decide)).1⟩

/-! ## Theorems: cache lookup key semantics (C2) -/

theorem find?_append_of_none {α : Type} (p : α → Bool) {l₁ : List α}
    (h : ∀ x ∈ l₁, p x = false) (l₂ : List α) :
    (l₁ ++ l₂).find? p = l₂.find? p := by
  induction l₁ with
  | nil => rfl
  | cons a t ih =>
    have ha := h a (List.mem_cons_self a t)
    simp only [List.cons_append, List.find?, ha]
    exact ih (fun x hx => h x (List.mem_cons_of_mem a hx))

/-- Lookups miss whenever no file row for the path and repository carries
the looked-up hash (in particular when the stored hash of the current row
differs from it). -/
theorem hasBeenAnalyzed_miss_of_hash (db : FileHashService.DB)
    (path h repo : String) (rule : Nat)
    (hh : ∀ f ∈ db.files, f.filePath = path → f.repositoryName = repo → f.fileHash ≠ h) :
    FileHashService.hasBeenAnalyzed db path h repo rule = (false, none) := by
  unfold FileHashService.hasBeenAnalyzed
  have hnone : db.files.find? (fun f =>
      f.filePath == path && f.fileHash == h && f.repositoryName == repo) = none := by
    rw [List.find?_eq_none]
    intro f hf
    simp only [Bool.and_eq_true, beq_iff_eq, not_and]
    intro hcl
    exact fun hr => hh f hf hcl.1 hr hcl.2
  rw [hnone]

/-- C2 as stated is false: record rule 1 for content hash "h1", then record
rule 2 for the same file with new hash "h2"; the interleaved record updates
the single stored hash of the file row, after which the lookup
(path, "h2", repo, rule 1) is a hit returning the findings recorded under
"h1", although no analysis of rule 1 was ever recorded with hash "h2". -/
theorem cache_lookup_counterexample :
    ("h1" : String) ≠ "h2" ∧
    FileHashService.hasBeenAnalyzed
      (FileHashService.recordAnalysis
        (FileHashService.recordAnalysis FileHashService.DB.empty "a.ts" "h1" "repo" 1
          (some [⟨1, "Rule", Severity.high, "a.ts", "d", "rec", 1, "s", none⟩]))
        "a.ts" "h2" "repo" 2 (some []))
      "a.ts" "h2" "repo" 1
      = (true, some [⟨1, "Rule", Severity.high, "a.ts", "d", "rec", 1, "s", none⟩]) := by
  refine ⟨by decide, ?_⟩
  rfl

/-- C2 amended: a lookup is a hit iff the file row for (filePath,
repositoryIdentity) currently stores the looked-up hash (the hash of the
most recent record call for that file, whatever rule it was for) and some
rule-analysis row for that ruleId exists, recorded under any hash. So a
lookup whose hash differs from the row's current hash is a miss, but after
an interleaved record call for another rule updates the row's stored hash,
a lookup with the new hash and the old ruleId hits and returns the findings
recorded under the old hash. -/
theorem recordAnalysis_insert (db : FileHashService.DB) (path h repo : String) (r : Nat)
    (fs : Option (List SecurityFinding))
    (hfind : db.files.find? (fun f => f.filePath == path && f.repositoryName == repo) = none) :
    FileHashService.recordAnalysis db path h repo r fs =
      ⟨db.files ++ [(⟨db.nextId, path, h, repo⟩ : FileHashService.AnalyzedFileRow)],
       db.analyses ++ [(⟨db.nextId, r, fs⟩ : FileHashService.FileRuleAnalysisRow)],
       db.nextId + 1⟩ := by
  unfold FileHashService.recordAnalysis
  rw [hfind]

theorem recordAnalysis_update (db : FileHashService.DB) (path h repo : String) (r : Nat)
    (fs : Option (List SecurityFinding)) (file : FileHashService.AnalyzedFileRow)
    (hfind : db.files.find? (fun f => f.filePath == path && f.repositoryName == repo) =
      some file) :
    FileHashService.recordAnalysis db path h repo r fs =
      ⟨db.files.map (fun f => if f.id == file.id then { f with fileHash := h } else f),
       db.analyses ++ [(⟨file.id, r, fs⟩ : FileHashService.FileRuleAnalysisRow)],
       db.nextId⟩ := by
  unfold FileHashService.recordAnalysis
  rw [hfind]

theorem hasBeenAnalyzed_hit (db : FileHashService.DB) (path h repo : String) (rule : Nat)
    (file : FileHashService.AnalyzedFileRow) (row : FileHashService.FileRuleAnalysisRow)
    (hfind1 : db.files.find? (fun f =>
      f.filePath == path && f.fileHash == h && f.repositoryName == repo) = some file)
    (hfind2 : db.analyses.find? (fun a => a.fileId == file.id && a.ruleId == rule) = some row) :
    FileHashService.hasBeenAnalyzed db path h repo rule = (true, some (row.findings.getD [])) := by
  simp only [FileHashService.hasBeenAnalyzed, hfind1, hfind2]

/-- C2 amended: a lookup is a hit iff the file row for (filePath,
repositoryIdentity) currently stores the looked-up hash (the hash of the
most recent record call for that file, whatever rule it was for) and some
rule-analysis row for that ruleId exists, recorded under any hash. So a
lookup whose hash differs from the row's current hash is a miss, but after
an interleaved record call for another rule updates the row's stored hash,
a lookup with the new hash and the old ruleId hits and returns the findings
recorded under the old hash. -/
theorem cache_lookup_amended (db0 : FileHashService.DB) (path repo h1 h2 : String)
    (r1 r2 : Nat) (F1 : List SecurityFinding)
    (hclean : ∀ f ∈ db0.files, ¬(f.filePath = path ∧ f.repositoryName = repo))
    (hfresh : ∀ a ∈ db0.analyses, a.fileId ≠ db0.nextId) :
    (∀ (db : FileHashService.DB) (p hh rp : String) (rid : Nat),
      (∀ f ∈ db.files, f.filePath = p → f.repositoryName = rp → f.fileHash ≠ hh) →
      FileHashService.hasBeenAnalyzed db p hh rp rid = (false, none)) ∧
    FileHashService.hasBeenAnalyzed
      (FileHashService.recordAnalysis
        (FileHashService.recordAnalysis db0 path h1 repo r1 (some F1))
        path h2 repo r2 (some []))
      path h2 repo r1 = (true, some F1) := by
  refine ⟨hasBeenAnalyzed_miss_of_hash, ?_⟩
  have hup : ∀ f ∈ db0.files,
      (f.filePath == path && f.repositoryName == repo) = false := by
    intro f hf
    simp only [Bool.and_eq_false_iff, beq_eq_false_iff_ne, ne_eq]
    by_cases hp : f.filePath = path
    · right; exact fun hr => hclean f hf ⟨hp, hr⟩
    · left; exact hp
  have hfindA : db0.files.find? (fun f =>
      f.filePath == path && f.repositoryName == repo) = none := by
    rw [List.find?_eq_none]
    intro f hf
    rw [hup f hf]
    exact Bool.false_ne_true
  rw [recordAnalysis_insert db0 path h1 repo r1 (some F1) hfindA]
  have hfindB : ((db0.files ++ [(⟨db0.nextId, path, h1, repo⟩ :
      FileHashService.AnalyzedFileRow)]).find? (fun f =>
        f.filePath == path && f.repositoryName == repo)) =
      some (⟨db0.nextId, path, h1, repo⟩ : FileHashService.AnalyzedFileRow) := by
    rw [find?_append_of_none
      (fun f : FileHashService.AnalyzedFileRow =>
        f.filePath == path && f.repositoryName == repo) hup]
    simp [List.find?]
  rw [recordAnalysis_update _ path h2 repo r2 (some []) _ hfindB]
  have hfindC : (((db0.files ++ [(⟨db0.nextId, path, h1, repo⟩ :
      FileHashService.AnalyzedFileRow)]).map (fun f =>
        if f.id == db0.nextId then { f with fileHash := h2 } else f)).find?
      (fun f => f.filePath == path && f.fileHash == h2 && f.repositoryName == repo)) =
      some (⟨db0.nextId, path, h2, repo⟩ : FileHashService.AnalyzedFileRow) := by
    rw [List.map_append]
    rw [find?_append_of_none
      (fun f : FileHashService.AnalyzedFileRow =>
        f.filePath == path && f.fileHash == h2 && f.repositoryName == repo)]
    · simp [List.find?]
    · intro x hx
      rw [List.mem_map] at hx
      obtain ⟨f, hf, rfl⟩ := hx
      have hcl := hclean f hf
      by_cases hp : f.filePath = path
      · have hr : f.repositoryName ≠ repo := fun hr => hcl ⟨hp, hr⟩
        by_cases hid : (f.id == db0.nextId) = true <;>
          simp [hid, hp, beq_eq_false_iff_ne, hr]
      · by_cases hid : (f.id == db0.nextId) = true <;>
          simp [hid, beq_eq_false_iff_ne, hp]
  have hfindD : ((db0.analyses ++ [(⟨db0.nextId, r1, some F1⟩ :
      FileHashService.FileRuleAnalysisRow)] ++ [(⟨db0.nextId, r2, some []⟩ :
      FileHashService.FileRuleAnalysisRow)]).find?
      (fun a => a.fileId == db0.nextId && a.ruleId == r1)) =
      some (⟨db0.nextId, r1, some F1⟩ : FileHashService.FileRuleAnalysisRow) := by
    rw [List.append_assoc]
    rw [find?_append_of_none
      (fun a : FileHashService.FileRuleAnalysisRow =>
        a.fileId == db0.nextId && a.ruleId == r1)]
    · simp [List.find?]
    · intro x hx
      have hne := hfresh x hx
      simp only [Bool.and_eq_false_iff, beq_eq_false_iff_ne, ne_eq]
      left; exact hne
  exact hasBeenAnalyzed_hit _ path h2 repo r1
    (⟨db0.nextId, path, h2, repo⟩ : FileHashService.AnalyzedFileRow)
    (⟨db0.nextId, r1, some F1⟩ : FileHashService.FileRuleAnalysisRow) hfindC hfindD

/-- Witness for the amended C2: from an empty store, recording rule 5 under
hash "x" and then rule 6 under hash "y" makes the lookup (path, "y", repo,
rule 5) hit with the findings recorded under "x". -/
theorem cache_lookup_amended_witness :
    FileHashService.hasBeenAnalyzed
      (FileHashService.recordAnalysis
        (FileHashService.recordAnalysis FileHashService.DB.empty "b.ts" "x" "r" 5 (some []))
        "b.ts" "y" "r" 6 (some []))
      "b.ts" "y" "r" 5 = (true, some []) :=
  (cache_lookup_amended FileHashService.DB.empty "b.ts" "r" "x" "y" 5 6 []
    (by intro f hf; simp [FileHashService.DB.empty] at hf)
    (by intro a ha; simp [FileHashService.DB.empty] at ha)).2

/-! ## Theorems: empty-repository detection (C6) -/

/-- C6: when the traversal counts zero analyzable files, the part_004
orchestrator marks the scan failed with the message "No analyzable files
found in the repository", persists no report, throws, and never runs any
analysis (no classifier call, no findings, no cache access). -/
theorem no_analyzable_files_claim (classify : Classifier) (hash : String → String)
    (metadataRepoName : Option String) (sourceBase rootName : String)
    (entries : List FSEntry) (rules : List SecurityRule) (db0 : FileHashService.DB)
    (h : Part004.countAnalyzableFiles entries = 0) :
    (Part004.analyzeRepository classify hash metadataRepoName sourceBase rootName
      entries rules db0).status = "failed" ∧
    (Part004.analyzeRepository classify hash metadataRepoName sourceBase rootName
      entries rules db0).error = some "No analyzable files found in the repository" ∧
    (Part004.analyzeRepository classify hash metadataRepoName sourceBase rootName
      entries rules db0).persistedReport = none ∧
    (Part004.analyzeRepository classify hash metadataRepoName sourceBase rootName
      entries rules db0).result =
      .error "No analyzable files found in the repository" ∧
    (Part004.analyzeRepository classify hash metadataRepoName sourceBase rootName
      entries rules db0).final.calls = [] ∧
    (Part004.analyzeRepository classify hash metadataRepoName sourceBase rootName
      entries rules db0).final.findings = [] := by
  unfold Part004.analyzeRepository
  simp [h, Part004.ScanState.init]

/-- Witness for C6: a root holding only a .git directory and a README.md
has zero analyzable files, and the scan fails with the specific message and
no persisted report. -/
theorem no_analyzable_files_witness :
    (Part004.analyzeRepository (fun _ _ => .ok none) id none "upload" "extracted"
      [.dir ".git" [.file "HEAD" "ref"], .file "README.md" "hello"] [] FileHashService.DB.empty).status = "failed" ∧
    (Part004.analyzeRepository (fun _ _ => .ok none) id none "upload" "extracted"
      [.dir ".git" [.file "HEAD" "ref"], .file "README.md" "hello"] [] FileHashService.DB.empty).error =
      some "No analyzable files found in the repository" ∧
    (Part004.analyzeRepository (fun _ _ => .ok none) id none "upload" "extracted"
      [.dir ".git" [.file "HEAD" "ref"], .file "README.md" "hello"] [] FileHashService.DB.empty).persistedReport = none := by
  have h := no_analyzable_files_claim (fun _ _ => .ok none) id none "upload" "extracted"
    [.dir ".git" [.file "HEAD" "ref"], .file "README.md" "hello"] [] FileHashService.DB.empty
    (by simp +decide [Part004.countAnalyzableFiles])
  exact ⟨h.1, h.2.1, h.2.2.1⟩

/-! ## Theorems: repository identity in cache keys (C3) -/

theorem runRules_lookup_repo (classify : Classifier) (repo rp fh ct : String)
    (rules : List SecurityRule) (st : Part004.ScanState) :
    ∀ k ∈ ((Part004.runRules classify repo rp fh ct rules st).1).lookups,
      k ∈ st.lookups ∨ k.repositoryName = repo := by
  induction rules generalizing st with
  | nil => intro k hk; exact Or.inl hk
  | cons rule rest ih =>
    intro k hk
    simp only [Part004.runRules] at hk
    split at hk
    · rcases ih _ k hk with h | h
      · simp only [List.mem_append, List.mem_singleton] at h
        rcases h with h | h
        · exact Or.inl h
        · subst h; exact Or.inr rfl
      · exact Or.inr h
    · split at hk
      · simp only [List.mem_append, List.mem_singleton] at hk
        rcases hk with h | h
        · exact Or.inl h
        · subst h; exact Or.inr rfl
      · rcases ih _ k hk with h | h
        · simp only [List.mem_append, List.mem_singleton] at h
          rcases h with h | h
          · exact Or.inl h
          · subst h; exact Or.inr rfl
        · exact Or.inr h
      · rcases ih _ k hk with h | h
        · simp only [List.mem_append, List.mem_singleton] at h
          rcases h with h | h
          · exact Or.inl h
          · subst h; exact Or.inr rfl
        · exact Or.inr h

theorem runRules_record_repo (classify : Classifier) (repo rp fh ct : String)
    (rules : List SecurityRule) (st : Part004.ScanState) :
    ∀ k ∈ ((Part004.runRules classify repo rp fh ct rules st).1).records,
      k ∈ st.records ∨ k.repositoryName = repo := by
  induction rules generalizing st with
  | nil => intro k hk; exact Or.inl hk
  | cons rule rest ih =>
    intro k hk
    simp only [Part004.runRules] at hk
    split at hk
    · rcases ih _ k hk with h | h
      · exact Or.inl h
      · exact Or.inr h
    · split at hk
      · exact Or.inl hk
      · rcases ih _ k hk with h | h
        · simp only [List.mem_append, List.mem_singleton] at h
          rcases h with h | h
          · exact Or.inl h
          · subst h; exact Or.inr rfl
        · exact Or.inr h
      · rcases ih _ k hk with h | h
        · simp only [List.mem_append, List.mem_singleton] at h
          rcases h with h | h
          · exact Or.inl h
          · subst h; exact Or.inr rfl
        · exact Or.inr h

theorem analyzeEntries_lookup_repo (classify : Classifier) (hash : String → String)
    (rules : List SecurityRule) (repo : String) :
    ∀ (entries : List FSEntry) (st : Part004.ScanState),
      ∀ k ∈ (Part004.analyzeEntries classify hash rules repo entries st).lookups,
        k ∈ st.lookups ∨ k.repositoryName = repo
  | [], st => by
    intro k hk
    simp only [Part004.analyzeEntries] at hk
    exact Or.inl hk
  | .dir n es :: rest, st => by
    intro k hk
    simp only [Part004.analyzeEntries] at hk
    by_cases hex : Part004.excludedDirectory n = true
    · simp only [hex, if_true] at hk
      exact analyzeEntries_lookup_repo classify hash rules repo rest st k hk
    · simp only [hex, Bool.false_eq_true, if_false] at hk
      rcases analyzeEntries_lookup_repo classify hash rules repo rest _ k hk with h | h
      · exact analyzeEntries_lookup_repo classify hash rules repo es st k h
      · exact Or.inr h
  | .file n c :: rest, st => by
    intro k hk
    simp only [Part004.analyzeEntries] at hk
    by_cases hel : Part004.shouldAnalyzeFile n = true
    · simp only [hel, if_true] at hk
      rcases analyzeEntries_lookup_repo classify hash rules repo rest _ k hk with h | h
      · unfold Part004.processFile at h
        exact runRules_lookup_repo classify repo n (hash c) c rules
          ⟨st.db, st.findings, st.processed + 1, st.lookups, st.records, st.calls⟩ k h
      · exact Or.inr h
    · simp only [hel, Bool.false_eq_true, if_false] at hk
      exact analyzeEntries_lookup_repo classify hash rules repo rest st k hk

theorem analyzeEntries_record_repo (classify : Classifier) (hash : String → String)
    (rules : List SecurityRule) (repo : String) :
    ∀ (entries : List FSEntry) (st : Part004.ScanState),
      ∀ k ∈ (Part004.analyzeEntries classify hash rules repo entries st).records,
        k ∈ st.records ∨ k.repositoryName = repo
  | [], st => by
    intro k hk
    simp only [Part004.analyzeEntries] at hk
    exact Or.inl hk
  | .dir n es :: rest, st => by
    intro k hk
    simp only [Part004.analyzeEntries] at hk
    by_cases hex : Part004.excludedDirectory n = true
    · simp only [hex, if_true] at hk
      exact analyzeEntries_record_repo classify hash rules repo rest st k hk
    · simp only [hex, Bool.false_eq_true, if_false] at hk
      rcases analyzeEntries_record_repo classify hash rules repo rest _ k hk with h | h
      · exact analyzeEntries_record_repo classify hash rules repo es st k h
      · exact Or.inr h
  | .file n c :: rest, st => by
    intro k hk
    simp only [Part004.analyzeEntries] at hk
    by_cases hel : Part004.shouldAnalyzeFile n = true
    · simp only [hel, if_true] at hk
      rcases analyzeEntries_record_repo classify hash rules repo rest _ k hk with h | h
      · unfold Part004.processFile at h
        exact runRules_record_repo classify repo n (hash c) c rules
          ⟨st.db, st.findings, st.processed + 1, st.lookups, st.records, st.calls⟩ k h
      · exact Or.inr h
    · simp only [hel, Bool.false_eq_true, if_false] at hk
      exact analyzeEntries_record_repo classify hash rules repo rest st k hk

/-- C3 as stated is false on the repoAnalyzer.ts variant: its analyzeFiles
recomputes repoName = path.basename(dir) inside every recursive call, so in
one scan rooted at "extracted" the lookup for the top-level file a.ts uses
repository identity "extracted" while the lookup for sub/b.ts uses "sub" -
two different identities within a single scan, neither of them necessarily
the scan's repository name. -/
theorem repository_identity_counterexample :
    RepoAnalyzer.lookupKeys id [⟨1, "n", "d", "cat", Severity.low, "p"⟩] "extracted"
      [.file "a.ts" "ca", .dir "sub" [.file "b.ts" "cb"]] =
      [⟨"a.ts", "ca", "extracted", 1⟩, ⟨"b.ts", "cb", "sub", 1⟩] ∧
    ("extracted" : String) ≠ "sub" := by
  constructor
  · simp +decide [RepoAnalyzer.lookupKeys]
  · decide

/-- C3 amended: in the part_004 variant the claim holds - every cache
lookup and every cache record of a scan carries the scan's repositoryName,
threaded unchanged through the traversal, for every file in every
subdirectory. In the repoAnalyzer.ts variant the identity sent to the cache
is instead the basename of the file's containing directory, so files in
different subdirectories of the same scan use different identities (see the
counterexample). -/
theorem repository_identity_amended (classify : Classifier) (hash : String → String)
    (rules : List SecurityRule) (repo : String) (entries : List FSEntry)
    (db0 : FileHashService.DB) :
    (∀ k ∈ (Part004.analyzeEntries classify hash rules repo entries
        (Part004.ScanState.init db0)).lookups, k.repositoryName = repo) ∧
    (∀ k ∈ (Part004.analyzeEntries classify hash rules repo entries
        (Part004.ScanState.init db0)).records, k.repositoryName = repo) := by
  constructor
  · intro k hk
    rcases analyzeEntries_lookup_repo classify hash rules repo entries
      (Part004.ScanState.init db0) k hk with h | h
    · simp [Part004.ScanState.init] at h
    · exact h
  · intro k hk
    rcases analyzeEntries_record_repo classify hash rules repo entries
      (Part004.ScanState.init db0) k hk with h | h
    · simp [Part004.ScanState.init] at h
    · exact h

/-- Witness for the amended C3: in a concrete part_004 scan of repository
"repo" containing a nested file, the lookup key recorded for the nested
file carries repository identity "repo". -/
theorem repository_identity_witness :
    (⟨"b.ts", "cb", "repo", 1⟩ : CacheKey).repositoryName = "repo" :=
  (repository_identity_amended (fun _ _ => .ok none) id
    [⟨1, "n", "d", "cat", Severity.low, "p"⟩] "repo"
    [.dir "sub" [.file "b.ts" "cb"]] FileHashService.DB.empty).1
    ⟨"b.ts", "cb", "repo", 1⟩
    (by simp +decide [Part004.analyzeEntries, Part004.processFile, Part004.runRules,
      Part004.ScanState.init, FileHashService.hasBeenAnalyzed, FileHashService.recordAnalysis,
      FileHashService.DB.empty, List.find?])

/-! ## Theorems: classifier error handling (C5) -/

/-- C5 as stated is false on the part_004 variant: with two rules and a
classifier that throws on rule 1 but would return a finding for rule 2, the
scan of a single file logs exactly one lookup and one classifier call (both
for rule 1), records nothing and collects no findings - rule 2 of the same
file is never looked up or evaluated, because the per-file catch block
swallows the error and skips the remaining rules of that file. -/
theorem classifier_error_counterexample :
    ((fun (_ : String) (r : SecurityRule) =>
        if r.id == 1 then (.error "boom" : Except String (Option LlmService.LLMAnalysis))
        else .ok (some ⟨"d", "rec", 1, "snip"⟩)) "c"
      ⟨2, "r2", "d2", "c2", Severity.high, "p2"⟩ = .ok (some ⟨"d", "rec", 1, "snip"⟩)) ∧
    (Part004.analyzeEntries
      (fun (_ : String) (r : SecurityRule) =>
        if r.id == 1 then (.error "boom" : Except String (Option LlmService.LLMAnalysis))
        else .ok (some ⟨"d", "rec", 1, "snip"⟩)) id
      [⟨1, "r1", "d1", "c1", Severity.high, "p1"⟩, ⟨2, "r2", "d2", "c2", Severity.high, "p2"⟩]
      "repo" [.file "a.ts" "c"] (Part004.ScanState.init FileHashService.DB.empty)).calls =
      [("a.ts", 1)] ∧
    (Part004.analyzeEntries
      (fun (_ : String) (r : SecurityRule) =>
        if r.id == 1 then (.error "boom" : Except String (Option LlmService.LLMAnalysis))
        else .ok (some ⟨"d", "rec", 1, "snip"⟩)) id
      [⟨1, "r1", "d1", "c1", Severity.high, "p1"⟩, ⟨2, "r2", "d2", "c2", Severity.high, "p2"⟩]
      "repo" [.file "a.ts" "c"] (Part004.ScanState.init FileHashService.DB.empty)).lookups =
      [⟨"a.ts", "c", "repo", 1⟩] ∧
    (Part004.analyzeEntries
      (fun (_ : String) (r : SecurityRule) =>
        if r.id == 1 then (.error "boom" : Except String (Option LlmService.LLMAnalysis))
        else .ok (some ⟨"d", "rec", 1, "snip"⟩)) id
      [⟨1, "r1", "d1", "c1", Severity.high, "p1"⟩, ⟨2, "r2", "d2", "c2", Severity.high, "p2"⟩]
      "repo" [.file "a.ts" "c"] (Part004.ScanState.init FileHashService.DB.empty)).records = [] ∧
    (Part004.analyzeEntries
      (fun (_ : String) (r : SecurityRule) =>
        if r.id == 1 then (.error "boom" : Except String (Option LlmService.LLMAnalysis))
        else .ok (some ⟨"d", "rec", 1, "snip"⟩)) id
      [⟨1, "r1", "d1", "c1", Severity.high, "p1"⟩, ⟨2, "r2", "d2", "c2", Severity.high, "p2"⟩]
      "repo" [.file "a.ts" "c"] (Part004.ScanState.init FileHashService.DB.empty)).findings = [] := by
  refine ⟨rfl, ?_, ?_, ?_, ?_⟩ <;>
    simp +decide [Part004.analyzeEntries, Part004.processFile, Part004.runRules,
      Part004.ScanState.init, FileHashService.hasBeenAnalyzed, FileHashService.DB.empty,
      List.find?]

/-- C5 amended: when the classifier raises an error for an eligible file
under the first pending rule, no finding is recorded and no cache write
happens for that (file, rule) pair, but the remaining rules of that file
are skipped (not continued with): the file contributes exactly one lookup
and one classifier call, the database, findings and record log are left
unchanged, and the scan continues with all remaining entries, still
reaching completion. -/
theorem classifier_error_amended (classify : Classifier) (hash : String → String)
    (r : SecurityRule) (restRules : List SecurityRule) (repo name content : String)
    (restEntries : List FSEntry) (st : Part004.ScanState) (e : String)
    (helig : Part004.shouldAnalyzeFile name = true)
    (hmiss : (FileHashService.hasBeenAnalyzed st.db name (hash content) repo r.id).1 = false)
    (herr : classify content r = .error e) :
    Part004.analyzeEntries classify hash (r :: restRules) repo
      (.file name content :: restEntries) st =
    Part004.analyzeEntries classify hash (r :: restRules) repo restEntries
      { st with processed := st.processed + 1,
                lookups := st.lookups ++ [⟨name, hash content, repo, r.id⟩],
                calls := st.calls ++ [(name, r.id)] } := by
  conv_lhs => rw [Part004.analyzeEntries]
  simp only [helig, if_true]
  congr 1
  unfold Part004.processFile
  simp only [Part004.runRules, hmiss, Bool.false_eq_true, if_false, herr]

/-- Witness for the amended C5: concrete instance with a second rule and a
second file, whose hypotheses hold by evaluation. -/
theorem classifier_error_amended_witness :
    Part004.analyzeEntries (fun _ _ => .error "boom") id
      [⟨1, "r1", "d1", "c1", Severity.high, "p1"⟩, ⟨2, "r2", "d2", "c2", Severity.low, "p2"⟩]
      "repo" [.file "a.ts" "c", .file "b.md" "x"]
      (Part004.ScanState.init FileHashService.DB.empty) =
    Part004.analyzeEntries (fun _ _ => .error "boom") id
      [⟨1, "r1", "d1", "c1", Severity.high, "p1"⟩, ⟨2, "r2", "d2", "c2", Severity.low, "p2"⟩]
      "repo" [.file "b.md" "x"]
      { Part004.ScanState.init FileHashService.DB.empty with
        processed := (Part004.ScanState.init FileHashService.DB.empty).processed + 1,
        lookups := (Part004.ScanState.init FileHashService.DB.empty).lookups ++
          [⟨"a.ts", "c", "repo", 1⟩],
        calls := (Part004.ScanState.init FileHashService.DB.empty).calls ++ [("a.ts", 1)] } :=
  classifier_error_amended (fun _ _ => .error "boom") id
    ⟨1, "r1", "d1", "c1", Severity.high, "p1"⟩ [⟨2, "r2", "d2", "c2", Severity.low, "p2"⟩]
    "repo" "a.ts" "c" [.file "b.md" "x"] (Part004.ScanState.init FileHashService.DB.empty)
    "boom" (by decide)
    (by simp +decide [FileHashService.hasBeenAnalyzed, FileHashService.DB.empty,
      Part004.ScanState.init, List.find?])
    rfl

/-! ## Theorems: cache round trip across scans (C1) -/

theorem find?_pathRepo_none (db : FileHashService.DB) (path repo : String)
    (hclean : ∀ f ∈ db.files, ¬(f.filePath = path ∧ f.repositoryName = repo)) :
    db.files.find? (fun f => f.filePath == path && f.repositoryName == repo) = none := by
  rw [List.find?_eq_none]
  intro f hf
  simp only [Bool.and_eq_true, beq_iff_eq, not_and]
  intro hp hr
  exact hclean f hf ⟨hp, hr⟩

/-- After a fresh insert for (path, repo) with hash h, the lookup with the
same four key components hits and returns the recorded findings. -/
theorem lookup_after_insert_same (db : FileHashService.DB) (path h repo : String)
    (rid : Nat) (fs : List SecurityFinding)
    (hclean : ∀ f ∈ db.files, ¬(f.filePath = path ∧ f.repositoryName = repo))
    (hfresh : ∀ a ∈ db.analyses, a.fileId ≠ db.nextId) :
    FileHashService.hasBeenAnalyzed
      (FileHashService.recordAnalysis db path h repo rid (some fs)) path h repo rid =
      (true, some fs) := by
  rw [recordAnalysis_insert db path h repo rid (some fs) (find?_pathRepo_none db path repo hclean)]
  have hfind1 : ((db.files ++ [(⟨db.nextId, path, h, repo⟩ :
      FileHashService.AnalyzedFileRow)]).find? (fun f =>
        f.filePath == path && f.fileHash == h && f.repositoryName == repo)) =
      some (⟨db.nextId, path, h, repo⟩ : FileHashService.AnalyzedFileRow) := by
    rw [find?_append_of_none
      (fun f : FileHashService.AnalyzedFileRow =>
        f.filePath == path && f.fileHash == h && f.repositoryName == repo)]
    · simp [List.find?]
    · intro f hf
      by_cases hp : f.filePath = path
      · have hr : f.repositoryName ≠ repo := fun hr => hclean f hf ⟨hp, hr⟩
        simp [hp, beq_eq_false_iff_ne, hr]
      · simp [beq_eq_false_iff_ne, hp]
  have hfind2 : ((db.analyses ++ [(⟨db.nextId, rid, some fs⟩ :
      FileHashService.FileRuleAnalysisRow)]).find? (fun a =>
        a.fileId == db.nextId && a.ruleId == rid)) =
      some (⟨db.nextId, rid, some fs⟩ : FileHashService.FileRuleAnalysisRow) := by
    rw [find?_append_of_none
      (fun a : FileHashService.FileRuleAnalysisRow =>
        a.fileId == db.nextId && a.ruleId == rid)]
    · simp [List.find?]
    · intro x hx
      simp only [Bool.and_eq_false_iff, beq_eq_false_iff_ne, ne_eq]
      left
      exact hfresh x hx
  exact hasBeenAnalyzed_hit _ path h repo rid
    (⟨db.nextId, path, h, repo⟩ : FileHashService.AnalyzedFileRow)
    (⟨db.nextId, rid, some fs⟩ : FileHashService.FileRuleAnalysisRow) hfind1 hfind2

/-- After a fresh insert for (path, repo) with hash h, a lookup with a
different hash misses, for any rule. -/
theorem lookup_after_insert_newHash (db : FileHashService.DB) (path h h2 repo : String)
    (rid rid2 : Nat) (fs : Option (List SecurityFinding))
    (hclean : ∀ f ∈ db.files, ¬(f.filePath = path ∧ f.repositoryName = repo))
    (hne : h ≠ h2) :
    FileHashService.hasBeenAnalyzed
      (FileHashService.recordAnalysis db path h repo rid fs) path h2 repo rid2 =
      (false, none) := by
  rw [recordAnalysis_insert db path h repo rid fs (find?_pathRepo_none db path repo hclean)]
  apply hasBeenAnalyzed_miss_of_hash
  intro f hf
  simp only [List.mem_append, List.mem_singleton] at hf
  rcases hf with hf | hf
  · exact fun hp hr => absurd ⟨hp, hr⟩ (hclean f hf)
  · subst hf
    intro _ _
    exact hne

/-- The finding that the part_004 analyzeFiles constructs from a classifier
analysis (lines 149-159): rule identity and severity from the rule, location
= the relative path, text fields and line number from the analysis, and the
full file content attached. -/
def Part004.mkFinding (R : SecurityRule) (name content : String)
    (a : LlmService.LLMAnalysis) : SecurityFinding :=
  ⟨R.id, R.name, R.severity, name, a.description, a.recommendation,
   a.lineNumber, a.codeSnippet, some content⟩

theorem analyzeEntries_single_hit (classify : Classifier) (hash : String → String)
    (R : SecurityRule) (repo name c : String) (st : Part004.ScanState)
    (fs : List SecurityFinding)
    (helig : Part004.shouldAnalyzeFile name = true)
    (hhit : FileHashService.hasBeenAnalyzed st.db name (hash c) repo R.id = (true, some fs)) :
    Part004.analyzeEntries classify hash [R] repo [.file name c] st =
      { st with processed := st.processed + 1,
                lookups := st.lookups ++ [⟨name, hash c, repo, R.id⟩],
                findings := st.findings ++ fs } := by
  simp only [Part004.analyzeEntries, helig, if_true]
  unfold Part004.processFile
  simp only [Part004.runRules, hhit]
  simp

theorem analyzeEntries_single_miss_some (classify : Classifier) (hash : String → String)
    (R : SecurityRule) (repo name c : String) (st : Part004.ScanState)
    (a : LlmService.LLMAnalysis)
    (helig : Part004.shouldAnalyzeFile name = true)
    (hmiss : (FileHashService.hasBeenAnalyzed st.db name (hash c) repo R.id).1 = false)
    (hcl : classify c R = .ok (some a)) :
    Part004.analyzeEntries classify hash [R] repo [.file name c] st =
      { st with processed := st.processed + 1,
                lookups := st.lookups ++ [⟨name, hash c, repo, R.id⟩],
                calls := st.calls ++ [(name, R.id)],
                findings := st.findings ++ [Part004.mkFinding R name c a],
                db := FileHashService.recordAnalysis st.db name (hash c) repo R.id
                  (some [Part004.mkFinding R name c a]),
                records := st.records ++ [⟨name, hash c, repo, R.id⟩] } := by
  simp only [Part004.analyzeEntries, helig, if_true]
  unfold Part004.processFile
  simp only [Part004.runRules, hmiss, Bool.false_eq_true, if_false, hcl, Part004.mkFinding]

theorem analyzeEntries_single_calls (classify : Classifier) (hash : String → String)
    (R : SecurityRule) (repo name c : String) (st : Part004.ScanState)
    (helig : Part004.shouldAnalyzeFile name = true)
    (hmiss : (FileHashService.hasBeenAnalyzed st.db name (hash c) repo R.id).1 = false) :
    (Part004.analyzeEntries classify hash [R] repo [.file name c] st).calls =
      st.calls ++ [(name, R.id)] := by
  simp only [Part004.analyzeEntries, helig, if_true]
  unfold Part004.processFile
  simp only [Part004.runRules, hmiss, Bool.false_eq_true, if_false]
  cases hcl : classify c R with
  | error e => rfl
  | ok o =>
    cases o with
    | none => rfl
    | some a => rfl

/-- C1 as stated is false with more than one configured rule: scan a file
with content "c" under rules 1 and 2 (both classifier calls succeed), then
scan the same file with one byte changed ("d"). Rule 1 misses and is
freshly classified, but its record overwrites the file row's single stored
hash, so rule 2's lookup hits again and returns the finding cached for the
OLD content (fileContent "c") without any classifier invocation - the
changed byte did not cause a cache miss and a fresh classifier invocation
for rule 2. -/
theorem cache_roundtrip_counterexample :
    ("c" : String) ≠ "d" ∧
    (let st1 := Part004.analyzeEntries
        (fun _ _ => (.ok (some ⟨"d", "rec", 1, "s"⟩) :
          Except String (Option LlmService.LLMAnalysis))) id
        [⟨1, "r1", "d1", "c1", Severity.high, "p1"⟩, ⟨2, "r2", "d2", "c2", Severity.low, "p2"⟩]
        "repo" [.file "a.ts" "c"] (Part004.ScanState.init FileHashService.DB.empty)
     let st2 := Part004.analyzeEntries
        (fun _ _ => (.ok (some ⟨"d", "rec", 1, "s"⟩) :
          Except String (Option LlmService.LLMAnalysis))) id
        [⟨1, "r1", "d1", "c1", Severity.high, "p1"⟩, ⟨2, "r2", "d2", "c2", Severity.low, "p2"⟩]
        "repo" [.file "a.ts" "d"] (Part004.ScanState.init st1.db)
     st1.calls = [("a.ts", 1), ("a.ts", 2)] ∧
     st2.calls = [("a.ts", 1)] ∧
     st2.findings.map (fun f => (f.ruleId, f.fileContent)) = [(1, some "d"), (2, some "c")]) := by
  refine ⟨by decide, ?_⟩
  simp +decide [Part004.analyzeEntries, Part004.processFile, Part004.runRules,
    Part004.ScanState.init, FileHashService.hasBeenAnalyzed, FileHashService.recordAnalysis,
    FileHashService.DB.empty, List.find?, id_eq]

/-- C1 amended: for a scan whose configured rule list is exactly [R], over
a file whose (path, repositoryIdentity) pair is fresh in the store: the
first scan classifies the file and records the finding F; a second scan
with identical content yields F from the cache, appended to the findings,
without invoking the classifier; and a scan with a single byte changed
(distinct fingerprint) misses the cache and freshly invokes the classifier.
With several configured rules the byte-change half holds only for the first
rule, because its re-record overwrites the stored hash and later rules hit
stale cached findings (see the counterexample). -/
theorem cache_roundtrip_amended (classify : Classifier) (hash : String → String)
    (repo name c c2 : String) (R : SecurityRule) (db0 : FileHashService.DB)
    (a : LlmService.LLMAnalysis)
    (helig : Part004.shouldAnalyzeFile name = true)
    (hclean : ∀ f ∈ db0.files, ¬(f.filePath = name ∧ f.repositoryName = repo))
    (hfresh : ∀ x ∈ db0.analyses, x.fileId ≠ db0.nextId)
    (hcl : classify c R = .ok (some a))
    (hhash : hash c ≠ hash c2) :
    (Part004.analyzeEntries classify hash [R] repo [.file name c]
      (Part004.ScanState.init db0)).findings = [Part004.mkFinding R name c a] ∧
    (Part004.analyzeEntries classify hash [R] repo [.file name c]
      (Part004.ScanState.init db0)).calls = [(name, R.id)] ∧
    (Part004.analyzeEntries classify hash [R] repo [.file name c]
      (Part004.ScanState.init
        (Part004.analyzeEntries classify hash [R] repo [.file name c]
          (Part004.ScanState.init db0)).db)).findings = [Part004.mkFinding R name c a] ∧
    (Part004.analyzeEntries classify hash [R] repo [.file name c]
      (Part004.ScanState.init
        (Part004.analyzeEntries classify hash [R] repo [.file name c]
          (Part004.ScanState.init db0)).db)).calls = [] ∧
    (FileHashService.hasBeenAnalyzed
      (Part004.analyzeEntries classify hash [R] repo [.file name c]
        (Part004.ScanState.init db0)).db name (hash c2) repo R.id).1 = false ∧
    (Part004.analyzeEntries classify hash [R] repo [.file name c2]
      (Part004.ScanState.init
        (Part004.analyzeEntries classify hash [R] repo [.file name c]
          (Part004.ScanState.init db0)).db)).calls = [(name, R.id)] := by
  have hmiss0 : (FileHashService.hasBeenAnalyzed db0 name (hash c) repo R.id).1 = false := by
    rw [hasBeenAnalyzed_miss_of_hash db0 name (hash c) repo R.id
      (fun f hf hp hr => absurd ⟨hp, hr⟩ (hclean f hf))]
  have hscan1 := analyzeEntries_single_miss_some classify hash R repo name c
    (Part004.ScanState.init db0) a helig hmiss0 hcl
  have hdb1 : (Part004.analyzeEntries classify hash [R] repo [.file name c]
      (Part004.ScanState.init db0)).db =
      FileHashService.recordAnalysis db0 name (hash c) repo R.id
        (some [Part004.mkFinding R name c a]) := by
    rw [hscan1]
    simp [Part004.ScanState.init]
  have hhit : FileHashService.hasBeenAnalyzed
      (Part004.analyzeEntries classify hash [R] repo [.file name c]
        (Part004.ScanState.init db0)).db name (hash c) repo R.id =
      (true, some [Part004.mkFinding R name c a]) := by
    rw [hdb1]
    exact lookup_after_insert_same db0 name (hash c) repo R.id
      [Part004.mkFinding R name c a] hclean hfresh
  have hmiss2 : FileHashService.hasBeenAnalyzed
      (Part004.analyzeEntries classify hash [R] repo [.file name c]
        (Part004.ScanState.init db0)).db name (hash c2) repo R.id = (false, none) := by
    rw [hdb1]
    exact lookup_after_insert_newHash db0 name (hash c) (hash c2) repo R.id R.id
      (some [Part004.mkFinding R name c a]) hclean hhash
  refine ⟨?_, ?_, ?_, ?_, ?_, ?_⟩
  · rw [hscan1]; simp [Part004.ScanState.init]
  · rw [hscan1]; simp [Part004.ScanState.init]
  · rw [analyzeEntries_single_hit classify hash R repo name c
      (Part004.ScanState.init
        (Part004.analyzeEntries classify hash [R] repo [.file name c]
          (Part004.ScanState.init db0)).db)
      [Part004.mkFinding R name c a] helig hhit]
    simp [Part004.ScanState.init]
  · rw [analyzeEntries_single_hit classify hash R repo name c
      (Part004.ScanState.init
        (Part004.analyzeEntries classify hash [R] repo [.file name c]
          (Part004.ScanState.init db0)).db)
      [Part004.mkFinding R name c a] helig hhit]
    simp [Part004.ScanState.init]
  · rw [hmiss2]
  · rw [analyzeEntries_single_calls classify hash R repo name c2
      (Part004.ScanState.init
        (Part004.analyzeEntries classify hash [R] repo [.file name c]
          (Part004.ScanState.init db0)).db) helig
      (by exact congrArg Prod.fst hmiss2)]
    simp [Part004.ScanState.init]

/-- Witness for the amended C1: concrete single-rule scans with contents
"x" and "y" from an empty store. -/
theorem cache_roundtrip_amended_witness :
    (Part004.analyzeEntries (fun _ _ => .ok (some ⟨"d", "rec", 1, "s"⟩)) id
      [⟨1, "r1", "d1", "c1", Severity.high, "p1"⟩] "repo" [.file "a.ts" "x"]
      (Part004.ScanState.init FileHashService.DB.empty)).findings =
      [Part004.mkFinding ⟨1, "r1", "d1", "c1", Severity.high, "p1"⟩ "a.ts" "x"
        ⟨"d", "rec", 1, "s"⟩] ∧
    (Part004.analyzeEntries (fun _ _ => .ok (some ⟨"d", "rec", 1, "s"⟩)) id
      [⟨1, "r1", "d1", "c1", Severity.high, "p1"⟩] "repo" [.file "a.ts" "x"]
      (Part004.ScanState.init
        (Part004.analyzeEntries (fun _ _ => .ok (some ⟨"d", "rec", 1, "s"⟩)) id
          [⟨1, "r1", "d1", "c1", Severity.high, "p1"⟩] "repo" [.file "a.ts" "x"]
          (Part004.ScanState.init FileHashService.DB.empty)).db)).calls = [] ∧
    (Part004.analyzeEntries (fun _ _ => .ok (some ⟨"d", "rec", 1, "s"⟩)) id
      [⟨1, "r1", "d1", "c1", Severity.high, "p1"⟩] "repo" [.file "a.ts" "y"]
      (Part004.ScanState.init
        (Part004.analyzeEntries (fun _ _ => .ok (some ⟨"d", "rec", 1, "s"⟩)) id
          [⟨1, "r1", "d1", "c1", Severity.high, "p1"⟩] "repo" [.file "a.ts" "x"]
          (Part004.ScanState.init FileHashService.DB.empty)).db)).calls = [("a.ts", 1)] := by
  have h := cache_roundtrip_amended (fun _ _ => .ok (some ⟨"d", "rec", 1, "s"⟩)) id
    "repo" "a.ts" "x" "y" ⟨1, "r1", "d1", "c1", Severity.high, "p1"⟩
    FileHashService.DB.empty ⟨"d", "rec", 1, "s"⟩
    (by decide)
    (by intro f hf; simp [FileHashService.DB.empty] at hf)
    (by intro x hx; simp [FileHashService.DB.empty] at hx)
    rfl
    (by decide)
  exact ⟨h.1, h.2.2.2.1, h.2.2.2.2.2⟩

/-! ## Theorems: tree builder sorting and determinism (C8) -/

/-- Sortedness invariant of a built tree: every directory node's children
are pairwise ordered by the comparator (directories first, then by name),
recursively. -/
inductive SortedTree : TreeNode → Prop where
  | file (n p : String) : SortedTree (.file n p)
  | dir (n p : String) (cs : List TreeNode) (hs : cs.Pairwise nodeLe)
      (hall : ∀ c ∈ cs, SortedTree c) : SortedTree (.dir n p cs)

/-- Well-formedness of a filesystem snapshot: sibling names are distinct at
every level (true of any real directory listing). -/
inductive DistinctNames : FSEntry → Prop where
  | file (n c : String) : DistinctNames (.file n c)
  | dir (n : String) (es : List FSEntry)
      (hnd : es.Pairwise (fun a b => a.name ≠ b.name))
      (hall : ∀ e ∈ es, DistinctNames e) : DistinctNames (.dir n es)

/-- Name order on filesystem entries, used only to canonicalise listing
order. -/
def entryLe (a b : FSEntry) : Prop := strLe a.name b.name = true

instance : DecidableRel entryLe := fun a b => by unfold entryLe; infer_instance

mutual

/-- Canonical form of a filesystem snapshot: each directory's listing
sorted by name, recursively. Two snapshots of one fixed directory structure
whose readdir listings come in different orders have the same canonical
form; the determinism half of the claim is stated through it. -/
def canon : FSEntry → FSEntry
  | .file n c => .file n c
  | .dir n es => .dir n (List.insertionSort entryLe (canonList es))

/-- Pointwise canonicalisation of a listing. -/
def canonList : List FSEntry → List FSEntry
  | [] => []
  | e :: rest => canon e :: canonList rest

end

theorem build_name (excluded : String → Bool) (p : String) (e : FSEntry) :
    (buildDirectoryTree excluded p e).name = e.name := by
  cases e <;> simp [buildDirectoryTree, TreeNode.name, FSEntry.name]

theorem canon_name (e : FSEntry) : (canon e).name = e.name := by
  cases e <;> simp [canon, FSEntry.name]

theorem mem_buildChildren (excluded : String → Bool) (p : String) :
    ∀ (es : List FSEntry) (c : TreeNode), c ∈ buildChildren excluded p es →
      ∃ e ∈ es, c = buildDirectoryTree excluded p e := by
  intro es
  induction es with
  | nil => intro c hc; simp [buildChildren] at hc
  | cons e rest ih =>
    intro c hc
    simp only [buildChildren] at hc
    by_cases hex : excluded e.name = true
    · simp only [hex, if_true] at hc
      obtain ⟨e', he', rfl⟩ := ih c hc
      exact ⟨e', List.mem_cons_of_mem _ he', rfl⟩
    · simp only [hex, Bool.false_eq_true, if_false] at hc
      rcases List.mem_cons.mp hc with rfl | hc
      · exact ⟨e, List.mem_cons_self _ _, rfl⟩
      · obtain ⟨e', he', rfl⟩ := ih c hc
        exact ⟨e', List.mem_cons_of_mem _ he', rfl⟩

theorem buildChildren_perm (excluded : String → Bool) (p : String)
    {es es' : List FSEntry} (h : es.Perm es') :
    (buildChildren excluded p es).Perm (buildChildren excluded p es') := by
  induction h with
  | nil => exact List.Perm.refl _
  | cons e h ih =>
    simp only [buildChildren]
    by_cases hex : excluded e.name = true
    · simp only [hex, if_true]
      exact ih
    · simp only [hex, Bool.false_eq_true, if_false]
      exact ih.cons _
  | swap x y l =>
    simp only [buildChildren]
    by_cases hx : excluded x.name = true <;> by_cases hy : excluded y.name = true <;>
      simp only [hx, hy, if_true, Bool.false_eq_true, if_false]
    · exact List.Perm.refl _
    · exact List.Perm.refl _
    · exact List.Perm.refl _
    · exact List.Perm.swap _ _ _
  | trans h1 h2 ih1 ih2 => exact ih1.trans ih2

theorem nodeLe_antisymm_name {a b : TreeNode} (h1 : nodeLe a b) (h2 : nodeLe b a) :
    a.name = b.name := by
  unfold nodeLe nodeLE at h1 h2
  cases hA : a.isDir <;> cases hB : b.isDir <;> simp only [hA, hB] at h1 h2 <;>
    simp at h1 h2 <;> try exact strLe_antisymm h1 h2

theorem pairwise_perm_eq : ∀ {l₁ l₂ : List TreeNode}, l₁.Perm l₂ →
    l₁.Pairwise nodeLe → l₂.Pairwise nodeLe →
    l₁.Pairwise (fun a b => a.name ≠ b.name) → l₁ = l₂ := by
  intro l₁
  induction l₁ with
  | nil =>
    intro l₂ hp _ _ _
    exact hp.nil_eq
  | cons a t ih =>
    intro l₂ hp hs₁ hs₂ hnd
    cases l₂ with
    | nil =>
      have := hp.eq_nil
      simp at this
    | cons b t₂ =>
      by_cases hab : a = b
      · subst hab
        rw [ih hp.cons_inv hs₁.of_cons hs₂.of_cons hnd.of_cons]
      · exfalso
        have ha2 : a ∈ b :: t₂ := hp.subset (List.mem_cons_self a t)
        have hat2 : a ∈ t₂ := by
          rcases List.mem_cons.mp ha2 with h | h
          · exact absurd h hab
          · exact h
        have hb1 : b ∈ a :: t := hp.symm.subset (List.mem_cons_self b t₂)
        have hbt : b ∈ t := by
          rcases List.mem_cons.mp hb1 with h | h
          · exact absurd h.symm hab
          · exact h
        have r1 : nodeLe a b := (List.pairwise_cons.mp hs₁).1 b hbt
        have r2 : nodeLe b a := (List.pairwise_cons.mp hs₂).1 a hat2
        exact (List.pairwise_cons.mp hnd).1 b hbt (nodeLe_antisymm_name r1 r2)

theorem sortChildren_pairwise (l : List TreeNode) : (sortChildren l).Pairwise nodeLe :=
  List.sorted_insertionSort nodeLe l

theorem sortChildren_perm (l : List TreeNode) : (sortChildren l).Perm l :=
  List.perm_insertionSort nodeLe l

theorem sortChildren_eq_of_perm {A B : List TreeNode} (hab : A.Perm B)
    (hnd : B.Pairwise (fun a b => a.name ≠ b.name)) : sortChildren A = sortChildren B := by
  have pA : (sortChildren A).Perm (sortChildren B) :=
    ((sortChildren_perm A).trans hab).trans (sortChildren_perm B).symm
  have q : (sortChildren A).Perm B := (sortChildren_perm A).trans hab
  exact pairwise_perm_eq pA (sortChildren_pairwise A) (sortChildren_pairwise B)
    ((q.pairwise_iff (by intro x y h e; exact h e.symm)).mpr hnd)

theorem buildChildren_pairwise_names (excluded : String → Bool) (p : String) :
    ∀ (es : List FSEntry), es.Pairwise (fun a b => a.name ≠ b.name) →
      (buildChildren excluded p es).Pairwise (fun a b : TreeNode => a.name ≠ b.name) := by
  intro es
  induction es with
  | nil => intro _; simp [buildChildren]
  | cons e rest ih =>
    intro hnd
    have hrel := (List.pairwise_cons.mp hnd).1
    have htail := (List.pairwise_cons.mp hnd).2
    simp only [buildChildren]
    by_cases hex : excluded e.name = true
    · simp only [hex, if_true]
      exact ih htail
    · simp only [hex, Bool.false_eq_true, if_false]
      refine List.pairwise_cons.mpr ⟨?_, ih htail⟩
      intro c hc
      obtain ⟨e', he', rfl⟩ := mem_buildChildren excluded p rest c hc
      rw [build_name, build_name]
      exact hrel e' he'

theorem buildChildren_congr_canon (excluded : String → Bool) (p : String) :
    ∀ (es : List FSEntry),
      (∀ e ∈ es, buildDirectoryTree excluded p (canon e) = buildDirectoryTree excluded p e) →
      buildChildren excluded p (canonList es) = buildChildren excluded p es := by
  intro es
  induction es with
  | nil => intro _; rfl
  | cons e rest ih =>
    intro hih
    simp only [canonList, buildChildren, canon_name]
    by_cases hex : excluded e.name = true
    · simp only [hex, if_true]
      exact ih (fun e' he' => hih e' (List.mem_cons_of_mem _ he'))
    · simp only [hex, Bool.false_eq_true, if_false]
      rw [hih e (List.mem_cons_self _ _), ih (fun e' he' => hih e' (List.mem_cons_of_mem _ he'))]

/-- Every tree the builder produces satisfies the sortedness invariant. -/
theorem sortedTree_build (excluded : String → Bool) (p : String) :
    ∀ t : FSEntry, SortedTree (buildDirectoryTree excluded p t)
  | .file n c => by
    simp only [buildDirectoryTree]
    exact SortedTree.file n (p ++ "/" ++ n)
  | .dir n es => by
    simp only [buildDirectoryTree]
    refine SortedTree.dir _ _ _ (sortChildren_pairwise _) ?_
    intro c hc
    rw [(sortChildren_perm _).mem_iff] at hc
    obtain ⟨e, he, rfl⟩ := mem_buildChildren excluded (p ++ "/" ++ n) es c hc
    have hlt : sizeOf e < sizeOf (FSEntry.dir n es) := by
      have := List.sizeOf_lt_of_mem he
      simp only [FSEntry.dir.sizeOf_spec]
      omega
    exact sortedTree_build excluded (p ++ "/" ++ n) e
termination_by t => sizeOf t

/-- Building the canonical form of a snapshot with distinct sibling names
gives the same tree as building the snapshot itself: the builder's output
does not depend on the listing order. -/
theorem build_canon (excluded : String → Bool) :
    ∀ (p : String) (t : FSEntry), DistinctNames t →
      buildDirectoryTree excluded p (canon t) = buildDirectoryTree excluded p t
  | _, .file n c, _ => rfl
  | p, .dir n es, hd => by
    have hnd : es.Pairwise (fun a b => a.name ≠ b.name) := by
      cases hd with
      | dir _ _ hnd _ => exact hnd
    have hall : ∀ e ∈ es, DistinctNames e := by
      cases hd with
      | dir _ _ _ hall => exact hall
    have hih : ∀ e ∈ es, buildDirectoryTree excluded (p ++ "/" ++ n) (canon e) =
        buildDirectoryTree excluded (p ++ "/" ++ n) e := by
      intro e he
      have hlt : sizeOf e < sizeOf (FSEntry.dir n es) := by
        have := List.sizeOf_lt_of_mem he
        simp only [FSEntry.dir.sizeOf_spec]
        omega
      exact build_canon excluded (p ++ "/" ++ n) e (hall e he)
    simp only [canon, buildDirectoryTree]
    congr 1
    have hperm : (buildChildren excluded (p ++ "/" ++ n)
        (List.insertionSort entryLe (canonList es))).Perm
        (buildChildren excluded (p ++ "/" ++ n) es) := by
      have h1 := buildChildren_perm excluded (p ++ "/" ++ n)
        (List.perm_insertionSort entryLe (canonList es))
      rw [buildChildren_congr_canon excluded (p ++ "/" ++ n) es hih] at h1
      exact h1
    exact sortChildren_eq_of_perm hperm
      (buildChildren_pairwise_names excluded (p ++ "/" ++ n) es hnd)
termination_by _ t => sizeOf t

/-- C8: every directory node of a built tree has its children sorted
directories-first and then by name within each kind (the comparator
nodeLE), recursively; and the builder is deterministic for a fixed
directory structure: two snapshots with the same canonical form (the same
structure up to readdir listing order, with distinct sibling names) build
to identical trees, so child ordering does not depend on listing order.
Stated for an arbitrary exclusion filter, covering both the repoAnalyzer.ts
and the part_004 variant of buildDirectoryTree. -/
theorem tree_builder_claim (excluded : String → Bool) (p : String) :
    (∀ t : FSEntry, SortedTree (buildDirectoryTree excluded p t)) ∧
    (∀ t₁ t₂ : FSEntry, DistinctNames t₁ → DistinctNames t₂ → canon t₁ = canon t₂ →
      buildDirectoryTree excluded p t₁ = buildDirectoryTree excluded p t₂) := by
  refine ⟨sortedTree_build excluded p, ?_⟩
  intro t₁ t₂ h₁ h₂ hc
  rw [← build_canon excluded p t₁ h₁, hc, build_canon excluded p t₂ h₂]

/-- Witness for C8: two snapshots of the same directory structure whose
root listings come in opposite orders build to the identical tree. -/
theorem tree_builder_witness :
    buildDirectoryTree Part004.excludedDirectory ""
      (.dir "r" [.file "b.ts" "x", .dir "a" []]) =
    buildDirectoryTree Part004.excludedDirectory ""
      (.dir "r" [.dir "a" [], .file "b.ts" "x"]) :=
  (tree_builder_claim Part004.excludedDirectory "").2
    (.dir "r" [.file "b.ts" "x", .dir "a" []])
    (.dir "r" [.dir "a" [], .file "b.ts" "x"])
    (by
      refine DistinctNames.dir _ _ (by simp [List.pairwise_cons, FSEntry.name]) ?_
      intro e he
      simp only [List.mem_cons, List.mem_singleton, List.not_mem_nil, or_false] at he
      rcases he with rfl | rfl
      · exact DistinctNames.file _ _
      · exact DistinctNames.dir _ _ (List.Pairwise.nil) (by intro e' he'; simp at he'))
    (by
      refine DistinctNames.dir _ _ (by simp [List.pairwise_cons, FSEntry.name]) ?_
      intro e he
      simp only [List.mem_cons, List.mem_singleton, List.not_mem_nil, or_false] at he
      rcases he with rfl | rfl
      · exact DistinctNames.dir _ _ (List.Pairwise.nil) (by intro e' he'; simp at he')
      · exact DistinctNames.file _ _)
    (by simp +decide [canon, canonList, List.insertionSort, List.orderedInsert,
      entryLe, strLe, charsLe, FSEntry.name])
